import Mathlib

/-!
# Shallow embedding of the knowledge-base generator's core pipeline

This file embeds, in Lean 4, the core logic of a Python pipeline that
assembles a text knowledge base from a chat post store (Mattermost), a wiki
API (Teamly) and a spreadsheet source, and proves or refutes a frozen list of
claims about that logic.

Conventions used throughout:

* Python strings are Lean `String`s (with `List Char` views where character
  level reasoning is needed); Python's falsiness of `None` and `""` is made
  explicit (`pyTruthy`).
* Epoch-millisecond timestamps are `Nat`.
* Stateful methods become explicit state-passing functions; the outcome of an
  outbound HTTP call is an explicit parameter (an oracle), since the remote
  service is outside the program.
* Python dictionaries keyed by strings are association lists or functions,
  matching how the source uses them (membership tests and ordered buckets).
-/

namespace KBGen

/-- Python truthiness of an optional string: `None` and `""` are falsy. -/
def pyTruthy : Option String → Bool
  | none => false
  | some s => s ≠ ""

/-- Python's `a or b` on optional strings: `b` unless `a` is truthy. -/
def pyOr (a b : Option String) : Option String :=
  if pyTruthy a then a else b

/-! ## Mattermost data model (src/src/models.py, fields used by the processor) -/

/-- One chat record, with the fields `MattermostProcessor.run` reads.
`RootId` uses the empty-string sentinel for "is a root", as the processor's
`if post.RootId` truthiness test does. -/
structure Post where
  Id : String
  CreateAt : Nat
  UserId : String
  RootId : String
  Message : String
deriving DecidableEq, Repr

/-! ## Thread reconstruction (src/src/processors/mattermost.py lines 150-167)

The Python code initialises `threads = {root_id: [] for root_id in
root_post_ids}` and then, for each fetched post, appends it to its root's
bucket (`threads[post.RootId].append(post)`) when its `RootId` is truthy and
a known key, and otherwise inserts it at position 0 of its own bucket
(`threads[post.Id].insert(0, post)`) when its `Id` is a known key.  Keys are
never added or removed after initialisation, so the dict is embedded as a
function from key to bucket, with membership given by the fixed root-id
list. -/

/-- One iteration of the bucket-filling loop over `all_relevant_posts`. -/
def addPost (rootIds : List String) (threads : String → List Post) (p : Post) :
    String → List Post :=
  if p.RootId ≠ "" ∧ p.RootId ∈ rootIds then
    fun k => if k = p.RootId then threads k ++ [p] else threads k
  else if p.Id ∈ rootIds then
    fun k => if k = p.Id then p :: threads k else threads k
  else threads

/-- The bucket map after the loop: fold of `addPost` starting from the
all-empty dict. -/
def buildThreads (rootIds : List String) (posts : List Post) :
    String → List Post :=
  posts.foldl (addPost rootIds) (fun _ => [])

/-- Stable insertion of a post into a list sorted by `CreateAt`: the new post
goes before the first strictly later post, after all earlier-or-equal ones.
Mirrors the stability contract of Python's `list.sort(key=...)`. -/
def insertByCreateAt (p : Post) : List Post → List Post
  | [] => [p]
  | q :: qs => if q.CreateAt < p.CreateAt then q :: insertByCreateAt p qs
               else p :: q :: qs

/-- Stable sort by `CreateAt` ascending, the embedding of
`thread_posts_list.sort(key=lambda p: p.CreateAt)` (Python's sort is stable;
any stable sort by the same key yields the same list). -/
def sortByCreateAt : List Post → List Post
  | [] => []
  | p :: ps => insertByCreateAt p (sortByCreateAt ps)

/-- The thread the processor works with for root id `k`: its bucket, sorted in
place by creation timestamp. -/
def threadFor (rootIds : List String) (posts : List Post) (k : String) :
    List Post :=
  sortByCreateAt (buildThreads rootIds posts k)

/-! ## Time-window partitioning (src/src/processors/mattermost.py lines 111-126, 224)

The run loop is `current = start; while current <= end: emit [current,
current + chunk); current += chunk`.  Timestamps are epoch milliseconds; the
`chunk` parameter is `PROCESSING_CHUNK_DAYS` converted to the same unit.  The
source never guards against a zero chunk (the constant is positive); with a
zero chunk the Python loop would not terminate, so the embedding returns `[]`
in that (unreachable) case to stay total. -/

/-- The list of emitted windows `[start, start + chunk)`, as produced by the
run loop. -/
def partitionWindows (start endTs chunk : Nat) : List (Nat × Nat) :=
  if start ≤ endTs then
    if 0 < chunk then
      (start, start + chunk) :: partitionWindows (start + chunk) endTs chunk
    else []
  else []
termination_by endTs + 1 - start
decreasing_by omega

/-! ## Chunk content and emission (src/src/processors/mattermost.py lines 159-222)

For one (channel, window) pair the processor builds `chunk_content`: it walks
the period's root posts (skipping already processed root ids), sorts each
thread bucket, and for every post with a truthy `Message` whose cleaned text
is truthy appends one `datetime: ..., user: ..., message: ...` line.  If
`chunk_content` is empty the pair is skipped (`continue`); otherwise a file
with a metadata header and the joined lines is written and uploaded.

`clean_text` here pipes the message through the third-party `markdown` and
`BeautifulSoup` libraries before the regex passes, so the normalizer is taken
as a parameter `clean`; the Moscow-timezone timestamp rendering
(`format_dt_human_msk ∘ epoch_ms_to_moscow_dt`) is likewise a parameter
`fmt`.  The claims about emission only constrain the *output* of `clean`, so
nothing is lost by this. -/

/-- The line the loop body appends for one post, `none` when the post is
skipped (`if post.Message:` falsy or cleaned text falsy).  The username
degrades to `user_<id>` when the author is not in `user_map`. -/
def postLine (clean : String → String) (fmt : Nat → String)
    (userMap : String → Option String) (p : Post) : Option String :=
  if p.Message ≠ "" then
    let cleaned := clean p.Message
    let username := (userMap p.UserId).getD ("user_" ++ p.UserId)
    if cleaned ≠ "" then
      some ("datetime: " ++ fmt p.CreateAt ++ ", user: " ++ username ++
            ", message: " ++ cleaned)
    else none
  else none

/-- The lines contributed by one sorted thread (the inner `for post in
thread_posts_list` loop). -/
def threadLines (clean : String → String) (fmt : Nat → String)
    (userMap : String → Option String) (posts : List Post) : List String :=
  posts.filterMap (postLine clean fmt userMap)

/-- The outer loop over the period's root posts, carrying the
`processed_threads_ids` set as the list `seen`. -/
def chunkContentAux (clean : String → String) (fmt : Nat → String)
    (userMap : String → Option String) (threads : String → List Post) :
    List Post → List String → List String
  | [], _ => []
  | r :: rest, seen =>
    if r.Id ∈ seen then chunkContentAux clean fmt userMap threads rest seen
    else
      threadLines clean fmt userMap (sortByCreateAt (threads r.Id)) ++
        chunkContentAux clean fmt userMap threads rest (r.Id :: seen)

/-- `chunk_content` for one (channel, window) pair. -/
def chunkContent (clean : String → String) (fmt : Nat → String)
    (userMap : String → Option String) (rootPosts allPosts : List Post) :
    List String :=
  chunkContentAux clean fmt userMap
    (buildThreads (rootPosts.map Post.Id) allPosts) rootPosts []

/-- What the pair emits: `none` when `chunk_content` is empty (the `continue`
branch, no file written), otherwise the content lines of the written chunk
file. -/
def processChannelWindow (clean : String → String) (fmt : Nat → String)
    (userMap : String → Option String) (rootPosts allPosts : List Post) :
    Option (List String) :=
  let content := chunkContent clean fmt userMap rootPosts allPosts
  if content.isEmpty then none else some content

/-! ## Teamly wiki data model (src/src/processors/teamly.py)

`get_article_details` returns a JSON object of which the processor reads
`id`, `title`, `latestProperties.title.text`, `editorContentObject.content`,
`breadcrumbs` and `relatedParentId`.  Each breadcrumb node is read only
through `node.get("sourceId")`, so a node is embedded as its optional
`sourceId` (a falsy node pattern such as `{}` or `None` becomes `none`). -/

/-- The fields of an article-details payload the grouping and exclusion logic
reads.  `breadcrumbs` lists each node's `sourceId`. -/
structure ArticleDetails where
  id : Option String
  title : Option String
  breadcrumbs : List (Option String)
  relatedParentId : Option String
deriving DecidableEq, Repr

/-- The empty details payload (`{}`): what the soft-failure paths of
`get_article_details` return. -/
def emptyDetails : ArticleDetails :=
  { id := none, title := none, breadcrumbs := [], relatedParentId := none }

/-- `_ancestor_ids_from_details` (teamly.py lines 403-418): every truthy
breadcrumb `sourceId` in order, then the truthy `relatedParentId` appended
unless already present. -/
def ancestorIdsFromDetails (d : ArticleDetails) : List String :=
  let ancestors := d.breadcrumbs.filterMap fun src =>
    if pyTruthy src then src else none
  match d.relatedParentId with
  | some pid =>
      if pid ≠ "" then
        if pid ∈ ancestors then ancestors else ancestors ++ [pid]
      else ancestors
  | none => ancestors

/-- `_is_excluded_or_descendant` (teamly.py lines 420-427): the item's own id
is excluded, or some resolved ancestor id is. -/
def isExcludedOrDescendant (excluded : List String) (articleId : String)
    (d : ArticleDetails) : Bool :=
  if articleId ∈ excluded then true
  else (ancestorIdsFromDetails d).any (fun anc => anc ∈ excluded)

/-- `_second_level_id_from_details` (teamly.py lines 394-401): the truthy
`sourceId` of `breadcrumbs[1]` when the breadcrumb has at least two entries,
else `None`. -/
def secondLevelIdFromDetails (d : ArticleDetails) : Option String :=
  match d.breadcrumbs with
  | _ :: second :: _ => if pyTruthy second then second else none
  | _ => none

/-! ## Second-level grouping (src/src/processors/teamly.py lines 494-556)

The run loop keeps `groups: dict[str, list[str]]` and does
`groups.setdefault(second_id, []).append(art.id)` for every article whose
`_second_level_id_from_details` is truthy.  The dict is embedded as an
association list in key-insertion order (`setdefault` appends a fresh key at
the end, `append` extends the value in place). -/

/-- `groups.setdefault(key, []).append(aid)`. -/
def addToGroups : List (String × List String) → String → String →
    List (String × List String)
  | [], key, aid => [(key, [aid])]
  | (k, v) :: rest, key, aid =>
      if k = key then (k, v ++ [aid]) :: rest
      else (k, v) :: addToGroups rest key aid

/-- Value of a key in the association list (first occurrence), `[]` when
absent — what `groups.get(k, [])` would read. -/
def groupLookup (gs : List (String × List String)) (k : String) :
    List String :=
  match gs.find? (fun p => p.1 = k) with
  | some p => p.2
  | none => []

/-- The grouping pass over the processed articles (each paired with its
details payload): articles with a truthy second-level id are routed to that
group, the rest are left out. -/
def buildGroups (arts : List (String × ArticleDetails)) :
    List (String × List String) :=
  arts.foldl
    (fun gs a =>
      match secondLevelIdFromDetails a.2 with
      | some k => addToGroups gs k a.1
      | none => gs)
    []

/-- `child_ids = [aid for aid in article_ids if aid != second_id]` (teamly.py
line 551): the ids whose text may enter the group's combined output. -/
def childIds (gs : List (String × List String)) (k : String) : List String :=
  (groupLookup gs k).filter (fun aid => aid ≠ k)

/-! ## Teamly token state and the resilient request (teamly.py lines 154-224)

The processor holds `_access_token` and `_refresh_token` (strings or `None`).
`_update_tokens_from_response` reads the refresh-exchange JSON through
Python's `or` chains; `refresh_token()` turns an HTTP-level failure or a
payload without an access token into `None`; `_request` retries once after a
successful refresh.  The remote side is an oracle: the refresh exchange's
outcome is a parameter, and the original call is a function `send` from the
bearer token used to the response received.  (File and `.env` persistence of
the tokens copies the same two fields and is I/O outside the embedding;
`new_teamly.py` lines 66-81 are the identical update logic minus the file
writes.) -/

/-- The client's token pair. -/
structure TokenState where
  access : Option String
  refresh : Option String
deriving DecidableEq, Repr

/-- A refresh-exchange response body, holding the key names
`_update_tokens_from_response` accepts. -/
structure TokenResponse where
  access_token : Option String
  accessToken : Option String
  token : Option String
  refresh_token : Option String
  refreshToken : Option String
deriving DecidableEq, Repr

/-- `_update_tokens_from_response` (teamly.py lines 154-174): `(did it return
True, the token state afterwards)`. -/
def updateTokensFromResponse (st : TokenState) (d : TokenResponse) :
    Bool × TokenState :=
  let access := pyOr (pyOr d.access_token d.accessToken) d.token
  let refresh := pyOr d.refresh_token d.refreshToken
  if pyTruthy access then
    (true,
     { access := access,
       refresh := if pyTruthy refresh then refresh else st.refresh })
  else (false, st)

/-- Outcome of the POST to the refresh endpoint: `raise_for_status` failed,
or it returned a JSON body. -/
inductive RefreshExchange where
  | httpError
  | ok (body : TokenResponse)
deriving DecidableEq, Repr

/-- `refresh_token` (teamly.py lines 176-201): `none` on HTTP failure or when
the body carries no access token (state untouched in both cases), otherwise
the body together with the updated state. -/
def refreshTokenFn (st : TokenState) (ex : RefreshExchange) :
    Option TokenResponse × TokenState :=
  match ex with
  | .httpError => (none, st)
  | .ok body =>
      let r := updateTokensFromResponse st body
      if r.1 then (some body, r.2) else (none, r.2)

/-- An HTTP response as `_request` sees it. -/
structure HttpResponse where
  status : Nat
  body : String
deriving DecidableEq, Repr

/-- The statuses that trigger the refresh-and-retry path
(`HTTPStatus.UNAUTHORIZED, HTTPStatus.FORBIDDEN`). -/
def isAuthFailure (s : Nat) : Bool :=
  s = 401 ∨ s = 403

/-- Events `_request` causes, in order: an outbound call with the bearer
token it used, or a refresh-token exchange. -/
inductive RequestEvent where
  | call (token : Option String)
  | refreshExchange
deriving DecidableEq, Repr

/-- `_request` (teamly.py lines 203-224): the response returned, the token
state afterwards, and the trace of events.  `send` maps the access token a
call uses to the response that call gets; `ex` is the refresh exchange's
outcome if one happens. -/
def requestFn (send : Option String → HttpResponse) (ex : RefreshExchange)
    (st : TokenState) : HttpResponse × TokenState × List RequestEvent :=
  let r1 := send st.access
  if isAuthFailure r1.status then
    match refreshTokenFn st ex with
    | (some _, st1) =>
        (send st1.access, st1,
         [.call st.access, .refreshExchange, .call st1.access])
    | (none, st1) =>
        (r1, st1, [.call st.access, .refreshExchange])
  else (r1, st, [.call st.access])

/-! ## Detail-fetch error dispatch (teamly.py lines 311-350)

`get_article_details` wraps the request and `raise_for_status` in
`try/except` clauses ordered `SSLError`, `RequestException`, `HTTPError`.  In
the `requests` library `SSLError` and `HTTPError` are both subclasses of
`RequestException`, and Python picks the first clause whose class matches, so
the embedding dispatches in source order against the real class hierarchy.
The fetch attempt's outcome is an oracle: either details data, or the raised
exception. -/

/-- An exception the fetch attempt can raise: an SSL error, another
network-level `RequestException` (connection failures and the like), or the
`HTTPError` that `raise_for_status` raises for a non-2xx status. -/
inductive ReqError where
  | sslError
  | connError
  | httpStatus (status : Nat)
deriving DecidableEq, Repr

/-- Class test for `except requests.exceptions.SSLError`. -/
def matchesSSLError : ReqError → Bool
  | .sslError => true
  | _ => false

/-- Class test for `except requests.exceptions.RequestException`: every
constructor matches, because `SSLError` and `HTTPError` both subclass
`RequestException` in the `requests` library. -/
def matchesRequestException : ReqError → Bool
  | _ => true

/-- Class test for `except requests.HTTPError`. -/
def matchesHTTPError : ReqError → Bool
  | .httpStatus _ => true
  | _ => false

/-- `get_article_details` (teamly.py lines 311-350): `.ok` is a returned
payload (possibly `emptyDetails` from a soft-failure path), `.error` is an
exception propagating to the caller.  The `except` clauses are tried in
source order. -/
def getArticleDetails (attempt : Except ReqError ArticleDetails) :
    Except ReqError ArticleDetails :=
  match attempt with
  | .ok d => .ok d
  | .error e =>
      if matchesSSLError e then .ok emptyDetails
      else if matchesRequestException e then .ok emptyDetails
      else if matchesHTTPError e then
        match e with
        | .httpStatus s => if s = 404 then .ok emptyDetails else .error e
        | _ => .error e
      else .error e

/-! ## Google Drive upload loop (src/src/utils/gdrive_utils.py lines 45-128)

`upload_file_to_gdrive` loops: attempt the create call; on success return; on
`HttpError` with status 413 while importing as a Google Doc and no fallback
tried yet, switch to a plain binary upload (metadata without the Google-Doc
mime type) and retry immediately, at most once; on a 5xx with attempts left,
back off and retry (`max_attempts = 3`, `attempt` starting at 1, condition
`attempt < max_attempts`); any other `HttpError`, and any other exception,
is logged and the function returns.  No path re-raises.  The sink's
responses are an oracle: the list of outcomes of successive create calls
(the source always gets one per attempt; the empty-list case cannot arise
and is reported as `exhausted`). -/

/-- Outcome of one Drive `files().create(...).execute()` attempt. -/
inductive DriveOutcome where
  | success
  | httpError (status : Nat)
  | otherError
deriving DecidableEq, Repr

/-- How the upload function returns to its caller — it always returns, it
never raises. -/
inductive UploadEnd where
  | uploaded
  | failedHttp (status : Nat)
  | failedOther
  | exhausted
deriving DecidableEq, Repr

/-- The `while True` loop of `upload_file_to_gdrive`, carrying `as_gdoc`,
`tried_binary_fallback` and `attempt`.  Returns the final result, the
`as_gdoc` flag under which each attempt ran (in order), and how many times
the 413 fallback branch ran. -/
def uploadLoop : List DriveOutcome → Bool → Bool → Nat →
    UploadEnd × List Bool × Nat
  | [], _, _, _ => (.exhausted, [], 0)
  | o :: rest, asGdoc, tried, attempt =>
      match o with
      | .success => (.uploaded, [asGdoc], 0)
      | .otherError => (.failedOther, [asGdoc], 0)
      | .httpError s =>
          if s = 413 ∧ asGdoc ∧ ¬tried then
            let r := uploadLoop rest false true attempt
            (r.1, asGdoc :: r.2.1, r.2.2 + 1)
          else if 500 ≤ s ∧ s < 600 ∧ attempt < 3 then
            let r := uploadLoop rest asGdoc tried (attempt + 1)
            (r.1, asGdoc :: r.2.1, r.2.2)
          else (.failedHttp s, [asGdoc], 0)

/-- `upload_file_to_gdrive` proper: the loop entered with
`tried_binary_fallback = False` and `attempt = 1`. -/
def uploadFileToGdrive (outcomes : List DriveOutcome) (asGdoc : Bool) :
    UploadEnd × List Bool × Nat :=
  uploadLoop outcomes asGdoc false 1

/-! ## The wiki-side text normalizer (src/src/processors/teamly.py lines 25-55)

`clean_text` there is pure regex work: remove every character of the emoji
pattern's character class, replace each maximal whitespace run by one space,
and strip.  Text is viewed as `List Char`; removing all matches of `[S]+`
is exactly filtering out the characters of the class `S`.

(The chat-side `clean_text` in mattermost.py additionally pipes the text
through the third-party `markdown` and `BeautifulSoup` libraries before its
regex passes; that composite lives outside the repository and is not embedded
here — the emission model above takes it as a parameter.) -/

/-- The emoji pattern's character class: the union of the code-point ranges
and singletons listed in the source (the `\U00002702-\U000027b0` range is
written twice there; a class is a union, so once suffices). -/
def isEmojiChar (c : Char) : Bool :=
  let n := c.toNat
  (0x1F600 ≤ n ∧ n ≤ 0x1F64F) ∨
  (0x1F300 ≤ n ∧ n ≤ 0x1F5FF) ∨
  (0x1F680 ≤ n ∧ n ≤ 0x1F6FF) ∨
  (0x1F1E0 ≤ n ∧ n ≤ 0x1F1FF) ∨
  (0x2500 ≤ n ∧ n ≤ 0x2BEF) ∨
  (0x2702 ≤ n ∧ n ≤ 0x27B0) ∨
  (0x24C2 ≤ n ∧ n ≤ 0x1F251) ∨
  (0x1F926 ≤ n ∧ n ≤ 0x1F937) ∨
  (0x10000 ≤ n ∧ n ≤ 0x10FFFF) ∨
  (0x2640 ≤ n ∧ n ≤ 0x2642) ∨
  (0x2600 ≤ n ∧ n ≤ 0x2B55) ∨
  n = 0x200D ∨ n = 0x23CF ∨ n = 0x23E9 ∨ n = 0x231A ∨
  n = 0xFE0F ∨ n = 0x3030

/-- Python's `\s` for `str` patterns: ASCII whitespace plus the Unicode
whitespace code points. -/
def isPyWhitespace (c : Char) : Bool :=
  let n := c.toNat
  n = 0x20 ∨ n = 0x9 ∨ n = 0xA ∨ n = 0xD ∨ n = 0xC ∨ n = 0xB ∨
  (0x1C ≤ n ∧ n ≤ 0x1F) ∨ n = 0x85 ∨ n = 0xA0 ∨ n = 0x1680 ∨
  (0x2000 ≤ n ∧ n ≤ 0x200A) ∨ n = 0x2028 ∨ n = 0x2029 ∨
  n = 0x202F ∨ n = 0x205F ∨ n = 0x3000

/-- `re.sub(r"\s+", " ", text)`: each maximal whitespace run becomes one
space. -/
def collapseWhitespace : List Char → List Char
  | [] => []
  | c :: cs =>
      if isPyWhitespace c then
        ' ' :: collapseWhitespace (cs.dropWhile isPyWhitespace)
      else c :: collapseWhitespace cs
termination_by l => l.length
decreasing_by
  · simpa using
      Nat.lt_succ_of_le (List.dropWhile_suffix isPyWhitespace).sublist.length_le
  · simp

/-- `str.strip()`, left half. -/
def lstripWs (l : List Char) : List Char :=
  l.dropWhile isPyWhitespace

/-- `str.strip()`, right half. -/
def rstripWs (l : List Char) : List Char :=
  (l.reverse.dropWhile isPyWhitespace).reverse

/-- `str.strip()`. -/
def stripWs (l : List Char) : List Char :=
  rstripWs (lstripWs l)

/-- `clean_text` of teamly.py on a character list: the falsy-input guard,
the emoji-class removal, the whitespace collapse, the strip. -/
def cleanTextTeamly (s : List Char) : List Char :=
  if s = [] then []
  else stripWs (collapseWhitespace (s.filter (fun c => !isEmojiChar c)))

instance : IsTotal Post (fun a b => a.CreateAt ≤ b.CreateAt) :=
  ⟨fun a b => Nat.le_total a.CreateAt b.CreateAt⟩

instance : IsTrans Post (fun a b => a.CreateAt ≤ b.CreateAt) :=
  ⟨fun _ _ _ => Nat.le_trans⟩

/-- The spec's example root: `R`, created at t = 100. -/
def postRootR : Post :=
  { Id := "R", CreateAt := 100, UserId := "u1", RootId := "", Message := "r" }

/-- The spec's example reply `A`, created at t = 50 (before the root). -/
def postReplyA : Post :=
  { Id := "A", CreateAt := 50, UserId := "u2", RootId := "R", Message := "a" }

/-- The spec's example reply `B`, created at t = 200. -/
def postReplyB : Post :=
  { Id := "B", CreateAt := 200, UserId := "u3", RootId := "R", Message := "b" }

/-! ## Properties of the window partitioner -/

/-- Index-wise description of the emitted windows: index `i` exists exactly
when `start + i * chunk ≤ endTs`, and the window there is
`[start + i * chunk, start + (i + 1) * chunk)`. -/
theorem partitionWindows_props (start endTs chunk : Nat) : 0 < chunk →
    ((∀ i, i < (partitionWindows start endTs chunk).length ↔
        start + i * chunk ≤ endTs) ∧
     ∀ (i : Nat) (h : i < (partitionWindows start endTs chunk).length),
       (partitionWindows start endTs chunk).get ⟨i, h⟩ =
         (start + i * chunk, start + (i + 1) * chunk)) := by
  induction start, endTs, chunk using partitionWindows.induct with
  | case1 s e c hle hpos ih =>
      intro hc
      obtain ⟨ih1, ih2⟩ := ih hc
      rw [partitionWindows, if_pos hle, if_pos hpos]
      refine ⟨fun i => ?_, fun i h => ?_⟩
      · cases i with
        | zero => simpa using hle
        | succ i =>
            simp only [List.length_cons, Nat.succ_lt_succ_iff, ih1 i,
              Nat.succ_mul]
            omega
      · cases i with
        | zero => simp
        | succ i =>
            have h2 : i < (partitionWindows (s + c) e c).length := by
              simpa [Nat.succ_lt_succ_iff] using h
            simp only [List.get_cons_succ]
            rw [ih2 i h2]
            refine Prod.ext ?_ ?_ <;> simp [Nat.succ_mul] <;> ring
  | case2 s e c hle hpos =>
      intro hc
      exact absurd hc hpos
  | case3 s e c hgt =>
      intro hc
      rw [partitionWindows, if_neg hgt]
      refine ⟨fun i => ?_, fun i h => by simp at h⟩
      simp only [List.length_nil]
      constructor
      · omega
      · intro h
        exfalso
        omega

/-- C5: for a positive chunk size, the run loop emits a window exactly when
its start is `≤ global_end`; window `i` is
`[start + i·chunk, start + (i+1)·chunk)`, so every window has length `chunk`
(the last may overhang `global_end`), consecutive windows satisfy
`window[i+1].start = window[i].end` (no gaps, no overlaps), and window starts
strictly increase. -/
theorem partitionWindows_tiling (start endTs chunk : Nat) (hc : 0 < chunk) :
    (∀ i, i < (partitionWindows start endTs chunk).length ↔
        start + i * chunk ≤ endTs) ∧
    (∀ (i : Nat) (h : i < (partitionWindows start endTs chunk).length),
      (partitionWindows start endTs chunk).get ⟨i, h⟩ =
        (start + i * chunk, start + (i + 1) * chunk)) ∧
    (∀ w ∈ partitionWindows start endTs chunk, w.2 = w.1 + chunk) ∧
    List.Chain' (fun a b => b.1 = a.2) (partitionWindows start endTs chunk) ∧
    List.Chain' (fun a b => a.1 < b.1) (partitionWindows start endTs chunk) := by
  obtain ⟨h1, h2⟩ := partitionWindows_props start endTs chunk hc
  refine ⟨h1, h2, ?_, ?_, ?_⟩
  · intro w hw
    obtain ⟨n, rfl⟩ := List.mem_iff_get.mp hw
    rw [h2 n.1 n.2]
    simp only [Nat.succ_mul]
    omega
  · rw [List.chain'_iff_get]
    intro i h
    rw [h2 i (by omega), h2 (i + 1) (by omega)]
  · rw [List.chain'_iff_get]
    intro i h
    rw [h2 i (by omega), h2 (i + 1) (by omega)]
    simp only [Nat.succ_mul]
    omega

/-- The partitioner theorem applied at the spec's own example: range
`[0, 100]` with chunk `30` gives the four windows `[0,30) [30,60) [60,90)
[90,120)`, the last overhanging the end of the range. -/
theorem partitionWindows_tiling_witness :
    partitionWindows 0 100 30 = [(0, 30), (30, 60), (60, 90), (90, 120)] ∧
    List.Chain' (fun a b : Nat × Nat => b.1 = a.2) (partitionWindows 0 100 30) := by
  constructor
  · rw [partitionWindows]; norm_num
    rw [partitionWindows]; norm_num
    rw [partitionWindows]; norm_num
    rw [partitionWindows]; norm_num
    rw [partitionWindows]; norm_num
  · exact (partitionWindows_tiling 0 100 30 (by norm_num)).2.2.2.1

/-! ## Properties of thread reconstruction -/

/-- `insertByCreateAt` is Mathlib's `orderedInsert` under the
timestamp order. -/
theorem insertByCreateAt_eq (p : Post) (l : List Post) :
    insertByCreateAt p l =
      List.orderedInsert (fun a b => a.CreateAt ≤ b.CreateAt) p l := by
  induction l with
  | nil => rfl
  | cons q qs ih =>
      by_cases h : p.CreateAt ≤ q.CreateAt
      · rw [insertByCreateAt, List.orderedInsert, if_pos h, if_neg (by omega)]
      · rw [insertByCreateAt, List.orderedInsert, if_neg h, if_pos (by omega),
          ih]

/-- `sortByCreateAt` is Mathlib's insertion sort under the timestamp
order. -/
theorem sortByCreateAt_eq (l : List Post) :
    sortByCreateAt l =
      List.insertionSort (fun a b => a.CreateAt ≤ b.CreateAt) l := by
  induction l with
  | nil => rfl
  | cons p ps ih => rw [sortByCreateAt, List.insertionSort, ih,
      insertByCreateAt_eq]

/-- The sorted bucket is ascending in `CreateAt`. -/
theorem sortByCreateAt_sorted (l : List Post) :
    List.Chain' (fun a b => a.CreateAt ≤ b.CreateAt) (sortByCreateAt l) := by
  rw [sortByCreateAt_eq]
  exact (List.sorted_insertionSort (fun a b => a.CreateAt ≤ b.CreateAt) l).chain'

/-- Sorting a bucket changes no membership. -/
theorem mem_sortByCreateAt (p : Post) (l : List Post) :
    p ∈ sortByCreateAt l ↔ p ∈ l := by
  rw [sortByCreateAt_eq]
  exact (List.perm_insertionSort (fun a b => a.CreateAt ≤ b.CreateAt) l).mem_iff

/-- C2 counterexample: on the spec's own example (root `R` at t=100, replies
`A` at t=50 and `B` at t=200) the reconstructed thread is `[A, R, B]`, not
the claimed `[R, A, B]` — the whole bucket, root included, is sorted by
`CreateAt`, so a reply created before the root precedes it. -/
theorem threadFor_root_not_first :
    threadFor ["R"] [postRootR, postReplyA, postReplyB] "R" =
      [postReplyA, postRootR, postReplyB] ∧
    threadFor ["R"] [postRootR, postReplyA, postReplyB] "R" ≠
      [postRootR, postReplyA, postReplyB] := by
  constructor <;> decide

/-- C2 amended: thread reconstruction yields the root's bucket — the root
inserted at position 0 plus its replies — sorted by creation timestamp
ascending over all its messages, root included (stably, so the root keeps
its head position only among equal-or-later timestamps); on the example this
gives `[A, R, B]`. -/
theorem threadFor_sorted_by_createAt :
    (∀ (rootIds : List String) (posts : List Post) (k : String),
      List.Chain' (fun a b => a.CreateAt ≤ b.CreateAt)
        (threadFor rootIds posts k)) ∧
    threadFor ["R"] [postRootR, postReplyA, postReplyB] "R" =
      [postReplyA, postRootR, postReplyB] :=
  ⟨fun _ _ _ => sortByCreateAt_sorted _, by decide⟩

/-! ## Properties of the detail-fetch error dispatch -/

/-- C3 (the code's actual behaviour): because `HTTPError` subclasses
`RequestException`, the `except RequestException` clause catches every raised
`HTTPError` first, so *every* HTTP error status — not only 404 — is a soft
failure returning the empty payload; the `except HTTPError` clause that would
re-raise non-404 statuses is unreachable.  SSL and other network errors are
soft as the claim says. -/
theorem getArticleDetails_http_errors_soft :
    (∀ s : Nat, getArticleDetails (.error (.httpStatus s)) = .ok emptyDetails) ∧
    getArticleDetails (.error .sslError) = .ok emptyDetails ∧
    getArticleDetails (.error .connError) = .ok emptyDetails ∧
    getArticleDetails (.error (.httpStatus 500)) = .ok emptyDetails ∧
    (∀ d : ArticleDetails, getArticleDetails (.ok d) = .ok d) := by
  exact ⟨fun s => rfl, rfl, rfl, rfl, fun d => rfl⟩

/-! ## Properties of the upload loop -/

/-- Once the binary fallback has been taken (`tried_binary_fallback` true),
no later iteration takes it again. -/
theorem uploadLoop_tried_no_fallback (outcomes : List DriveOutcome) :
    ∀ asGdoc attempt,
      (uploadLoop outcomes asGdoc true attempt).2.2 = 0 := by
  induction outcomes with
  | nil => intro asGdoc attempt; rfl
  | cons o rest ih =>
      intro asGdoc attempt
      cases o with
      | success => rfl
      | otherError => rfl
      | httpError s =>
          rw [uploadLoop]
          split
          · next h => exact absurd rfl h.2.2
          · split
            · simpa using ih asGdoc (attempt + 1)
            · rfl

/-- After the fallback the upload mode stays binary: every attempt of a loop
entered with `as_gdoc = False` runs with `as_gdoc = False`. -/
theorem uploadLoop_binary_stays_binary (outcomes : List DriveOutcome) :
    ∀ tried attempt b, b ∈ (uploadLoop outcomes false tried attempt).2.1 →
      b = false := by
  induction outcomes with
  | nil => intro tried attempt b hb; simp [uploadLoop] at hb
  | cons o rest ih =>
      intro tried attempt b hb
      cases o with
      | success => simpa [uploadLoop] using hb
      | otherError => simpa [uploadLoop] using hb
      | httpError s =>
          rw [uploadLoop] at hb
          rcases hb with hb
          split at hb
          · next h => exact absurd h.2.1 (by simp)
          · split at hb
            · simp only [List.mem_cons] at hb
              rcases hb with rfl | hb
              · rfl
              · exact ih tried (attempt + 1) b hb
            · simpa using hb


/-- C9: the 413 fallback runs at most once per call (in every reachable and
unreachable loop state); when a Google-Doc import gets a 413 with no fallback
tried yet, the loop switches to a plain binary upload for the very next
attempt and every later one, counting exactly one fallback; and the loop
always returns a value to the caller — it has no raising path (`UploadEnd`
covers every way out). -/
theorem uploadFileToGdrive_fallback_once :
    (∀ (outcomes : List DriveOutcome) (asGdoc tried : Bool) (attempt : Nat),
      (uploadLoop outcomes asGdoc tried attempt).2.2 ≤ 1) ∧
    (∀ (outcomes : List DriveOutcome) (asGdoc : Bool),
      (uploadFileToGdrive outcomes asGdoc).2.2 ≤ 1) ∧
    (∀ (rest : List DriveOutcome) (attempt : Nat),
      uploadLoop (.httpError 413 :: rest) true false attempt =
        ((uploadLoop rest false true attempt).1,
         true :: (uploadLoop rest false true attempt).2.1, 1)) ∧
    (∀ (outcomes : List DriveOutcome) (tried : Bool) (attempt : Nat),
      ∀ b ∈ (uploadLoop outcomes false tried attempt).2.1, b = false) := by
  have key : ∀ (outcomes : List DriveOutcome) (asGdoc tried : Bool)
      (attempt : Nat), (uploadLoop outcomes asGdoc tried attempt).2.2 ≤ 1 := by
    intro outcomes
    induction outcomes with
    | nil => intro asGdoc tried attempt; simp [uploadLoop]
    | cons o rest ih =>
        intro asGdoc tried attempt
        cases o with
        | success => simp [uploadLoop]
        | otherError => simp [uploadLoop]
        | httpError s =>
            rw [uploadLoop]
            split
            · simp [uploadLoop_tried_no_fallback]
            · split
              · exact ih asGdoc tried (attempt + 1)
              · simp
  refine ⟨key, fun outcomes asGdoc => key outcomes asGdoc false 1,
    fun rest attempt => ?_, uploadLoop_binary_stays_binary⟩
  rw [uploadLoop]
  rw [if_pos (by simp)]
  show ((uploadLoop rest false true attempt).1,
      true :: (uploadLoop rest false true attempt).2.1,
      (uploadLoop rest false true attempt).2.2 + 1) = _
  rw [uploadLoop_tried_no_fallback]

/-- The fallback theorem applied concretely: a Google-Doc import that gets a
413 and then succeeds runs two attempts — the first as a Doc import, the
second binary — with exactly one fallback. -/
theorem uploadFileToGdrive_fallback_once_witness :
    uploadLoop [DriveOutcome.httpError 413, DriveOutcome.success] true false 1 =
      (UploadEnd.uploaded, [true, false], 1) ∧ (false = true → False) := by
  constructor
  · rw [uploadFileToGdrive_fallback_once.2.2.1 [DriveOutcome.success] 1]
    rfl
  · intro hfalse
    exact absurd
      (uploadFileToGdrive_fallback_once.2.2.2 [DriveOutcome.success] false 1
        true (by rw [hfalse] at *; decide))
      (by simp)

/-! ## Properties of the token update and the resilient request -/

/-- Python's `or` chain is truthy exactly when one operand is. -/
theorem pyTruthy_pyOr (a b : Option String) :
    pyTruthy (pyOr a b) = (pyTruthy a || pyTruthy b) := by
  by_cases h : pyTruthy a
  · simp [pyOr, h]
  · simp [pyOr, h]

/-- C10: the token-update step succeeds exactly when the refresh-exchange
body holds a truthy access token under one of the accepted keys
(`access_token`, `accessToken`, `token`); on success the stored access token
becomes the first truthy of those, and the stored refresh token is replaced
by the first truthy of `refresh_token`/`refreshToken` only when one exists,
staying unchanged otherwise; on failure both stored tokens are unchanged. -/
theorem updateTokensFromResponse_spec (st : TokenState) (d : TokenResponse) :
    ((updateTokensFromResponse st d).1 = true ↔
      (pyTruthy d.access_token ∨ pyTruthy d.accessToken ∨ pyTruthy d.token)) ∧
    ((updateTokensFromResponse st d).1 = true →
      (updateTokensFromResponse st d).2.access =
          pyOr (pyOr d.access_token d.accessToken) d.token ∧
      pyTruthy (updateTokensFromResponse st d).2.access = true ∧
      ((pyTruthy d.refresh_token ∨ pyTruthy d.refreshToken) →
        (updateTokensFromResponse st d).2.refresh =
          pyOr d.refresh_token d.refreshToken) ∧
      (¬(pyTruthy d.refresh_token ∨ pyTruthy d.refreshToken) →
        (updateTokensFromResponse st d).2.refresh = st.refresh)) ∧
    ((updateTokensFromResponse st d).1 = false →
      (updateTokensFromResponse st d).2 = st) := by
  by_cases ha : pyTruthy (pyOr (pyOr d.access_token d.accessToken) d.token)
  · have ha2 : pyTruthy d.access_token ∨ pyTruthy d.accessToken ∨
        pyTruthy d.token := by
      have := ha
      rw [pyTruthy_pyOr, pyTruthy_pyOr] at this
      simpa [or_assoc] using this
    refine ⟨?_, ?_, ?_⟩
    · simp [updateTokensFromResponse, ha, ha2]
    · intro _
      refine ⟨by simp [updateTokensFromResponse, ha], ?_, ?_, ?_⟩
      · simp [updateTokensFromResponse, ha]
      · intro hr
        have hr2 : pyTruthy (pyOr d.refresh_token d.refreshToken) := by
          rw [pyTruthy_pyOr]
          simpa using hr
        simp [updateTokensFromResponse, ha, hr2]
      · intro hr
        have hr2 : ¬ pyTruthy (pyOr d.refresh_token d.refreshToken) := by
          rw [pyTruthy_pyOr]
          simpa using hr
        simp [updateTokensFromResponse, ha, hr2]
    · intro hfail
      exfalso
      simp [updateTokensFromResponse, ha] at hfail
  · have ha2 : ¬(pyTruthy d.access_token ∨ pyTruthy d.accessToken ∨
        pyTruthy d.token) := by
      rw [pyTruthy_pyOr, pyTruthy_pyOr] at ha
      simpa [or_assoc] using ha
    refine ⟨by simp [updateTokensFromResponse, ha, ha2], ?_, ?_⟩
    · intro hok
      exfalso
      simp [updateTokensFromResponse, ha] at hok
    · intro _
      simp [updateTokensFromResponse, ha]

/-- The token-update theorem applied concretely: a body carrying
`accessToken = "a2"` and no refresh token replaces the access token and
leaves the refresh token alone. -/
theorem updateTokensFromResponse_spec_witness :
    (updateTokensFromResponse
        { access := some "a1", refresh := some "r1" }
        { access_token := none, accessToken := some "a2", token := none,
          refresh_token := none, refreshToken := some "" }).2.refresh =
      some "r1" :=
  (updateTokensFromResponse_spec
      { access := some "a1", refresh := some "r1" }
      { access_token := none, accessToken := some "a2", token := none,
        refresh_token := none, refreshToken := some "" }).2.1
    (by decide) |>.2.2.2 (by decide)

/-- A token update that reports failure leaves the state untouched. -/
theorem updateTokens_fail_state (st : TokenState) (d : TokenResponse) :
    (updateTokensFromResponse st d).1 = false →
    (updateTokensFromResponse st d).2 = st := by
  unfold updateTokensFromResponse
  by_cases ha : pyTruthy (pyOr (pyOr d.access_token d.accessToken) d.token)
  · simp [ha]
  · simp [ha]

/-- A refresh that fails — HTTP failure or a body without an access token —
leaves the token state untouched and reports `none`. -/
theorem refreshTokenFn_fail_state (st : TokenState) (ex : RefreshExchange) :
    (refreshTokenFn st ex).1 = none → (refreshTokenFn st ex).2 = st := by
  cases ex with
  | httpError => intro _; rfl
  | ok body =>
      intro hnone
      by_cases hb : (updateTokensFromResponse st body).1
      · simp [refreshTokenFn, hb] at hnone
      · have := updateTokens_fail_state st body (by simpa using hb)
        simpa [refreshTokenFn, hb] using this

/-- C1: per call, the client sends the original request once; on a 401/403 it
performs exactly one refresh exchange and — only if that refresh succeeded —
exactly one retry, using the refreshed state's access token; on refresh
failure the original unauthorized response comes back with the state
untouched; the trace never holds more than one refresh exchange or two
outbound calls, no matter what the retried call returns (in particular when
the retry is again 401/403 there is no second refresh). -/
theorem requestFn_single_refresh (send : Option String → HttpResponse)
    (ex : RefreshExchange) (st : TokenState) :
    ((requestFn send ex st).2.2.countP
        (fun e => e = RequestEvent.refreshExchange) ≤ 1 ∧
     (requestFn send ex st).2.2.countP
        (fun e => e ≠ RequestEvent.refreshExchange) ≤ 2) ∧
    (isAuthFailure (send st.access).status = false →
      requestFn send ex st = (send st.access, st, [.call st.access])) ∧
    (isAuthFailure (send st.access).status = true →
      (refreshTokenFn st ex).1 = none →
      requestFn send ex st =
        (send st.access, st, [.call st.access, .refreshExchange])) ∧
    (isAuthFailure (send st.access).status = true →
      ∀ (body : TokenResponse) (st1 : TokenState),
        refreshTokenFn st ex = (some body, st1) →
        requestFn send ex st =
          (send st1.access, st1,
           [.call st.access, .refreshExchange, .call st1.access])) := by
  refine ⟨?_, ?_, ?_, ?_⟩
  · unfold requestFn
    by_cases hauth : isAuthFailure (send st.access).status
    · rcases hre : refreshTokenFn st ex with ⟨o, st1⟩
      cases o with
      | some body => simp [hauth, hre, List.countP_cons, List.countP_nil]
      | none => simp [hauth, hre, List.countP_cons, List.countP_nil]
    · simp [hauth, List.countP_cons, List.countP_nil]
  · intro hauth
    unfold requestFn
    simp [hauth]
  · intro hauth hnone
    have hst : (refreshTokenFn st ex).2 = st := refreshTokenFn_fail_state st ex hnone
    unfold requestFn
    rcases hre : refreshTokenFn st ex with ⟨o, st1⟩
    cases o with
    | some body => rw [hre] at hnone; simp at hnone
    | none =>
        rw [hre] at hst
        simp only at hst
        simp [hauth, hre, hst]
  · intro hauth body st1 hre
    unfold requestFn
    simp [hauth, hre]

/-- The request theorem applied concretely: an expired token gets 401, the
refresh exchange returns a new access token, and the retried call with that
token succeeds with exactly one refresh in the trace. -/
theorem requestFn_single_refresh_witness :
    requestFn
        (fun t => if t = some "new" then ⟨200, "ok"⟩ else ⟨401, "denied"⟩)
        (.ok { access_token := some "new", accessToken := none, token := none,
               refresh_token := none, refreshToken := none })
        { access := some "old", refresh := some "r" } =
      (⟨200, "ok"⟩,
       { access := some "new", refresh := some "r" },
       [.call (some "old"), .refreshExchange, .call (some "new")]) := by
  have h := (requestFn_single_refresh
      (fun t => if t = some "new" then ⟨200, "ok"⟩ else ⟨401, "denied"⟩)
      (.ok { access_token := some "new", accessToken := none, token := none,
             refresh_token := none, refreshToken := none })
      { access := some "old", refresh := some "r" }).2.2.2
    (by decide)
    { access_token := some "new", accessToken := none, token := none,
      refresh_token := none, refreshToken := none }
    { access := some "new", refresh := some "r" }
    (by decide)
  rw [h]
  decide

/-! ## Properties of exclusion and grouping -/

/-- Membership in the resolved ancestry chain: exactly the non-empty
breadcrumb `sourceId`s and a non-empty explicit parent reference. -/
theorem mem_ancestorIdsFromDetails (d : ArticleDetails) (a : String) :
    a ∈ ancestorIdsFromDetails d ↔
      ((some a ∈ d.breadcrumbs ∧ a ≠ "") ∨
       (d.relatedParentId = some a ∧ a ≠ "")) := by
  unfold ancestorIdsFromDetails
  have hbc : ∀ x : String,
      x ∈ d.breadcrumbs.filterMap
        (fun src => if pyTruthy src then src else none) ↔
      (some x ∈ d.breadcrumbs ∧ x ≠ "") := by
    intro x
    simp only [List.mem_filterMap]
    constructor
    · rintro ⟨src, hsrc, hx⟩
      by_cases ht : pyTruthy src
      · rw [if_pos ht] at hx
        subst hx
        refine ⟨hsrc, ?_⟩
        simpa [pyTruthy] using ht
      · rw [if_neg ht] at hx
        exact absurd hx (by simp)
    · rintro ⟨hsrc, hne⟩
      exact ⟨some x, hsrc, by simp [pyTruthy, hne]⟩
  rcases hp : d.relatedParentId with _ | pid
  · dsimp only
    rw [hbc a]
    simp
  · dsimp only
    by_cases hpe : pid ≠ ""
    · rw [if_pos hpe]
      by_cases hmem : pid ∈ d.breadcrumbs.filterMap
          (fun src => if pyTruthy src then src else none)
      · rw [if_pos hmem]
        rw [hbc a]
        constructor
        · intro h
          exact Or.inl h
        · rintro (h | ⟨hpa, hna⟩)
          · exact h
          · have : a = pid := by injection hpa.symm
            subst this
            exact ((hbc a).mp hmem)
      · rw [if_neg hmem]
        rw [List.mem_append]
        rw [hbc a]
        constructor
        · rintro (h | h)
          · exact Or.inl h
          · simp only [List.mem_singleton] at h
            subst h
            exact Or.inr ⟨rfl, hpe⟩
        · rintro (h | ⟨hpa, hna⟩)
          · exact Or.inl h
          · have : a = pid := by injection hpa.symm
            subst this
            simp
    · push_neg at hpe
      subst hpe
      rw [if_neg (by simp)]
      rw [hbc a]
      constructor
      · intro h
        exact Or.inl h
      · rintro (h | ⟨hpa, hna⟩)
        · exact h
        · exact absurd (by injection hpa.symm) hna

/-- C6: an item is excluded exactly when its own id, or some id of its
resolved ancestry chain (non-empty breadcrumb `sourceId`s plus a non-empty
explicit parent reference), lies in the excluded set; in particular an
excluded id appearing anywhere in the breadcrumb excludes the item, so
exclusion propagates to the whole subtree. -/
theorem isExcludedOrDescendant_spec (excluded : List String) (aid : String)
    (d : ArticleDetails) :
    (isExcludedOrDescendant excluded aid d = true ↔
      (aid ∈ excluded ∨ ∃ anc ∈ ancestorIdsFromDetails d, anc ∈ excluded)) ∧
    (∀ a : String, a ∈ ancestorIdsFromDetails d ↔
      ((some a ∈ d.breadcrumbs ∧ a ≠ "") ∨
       (d.relatedParentId = some a ∧ a ≠ ""))) ∧
    (∀ X, X ∈ excluded → some X ∈ d.breadcrumbs → X ≠ "" →
      isExcludedOrDescendant excluded aid d = true) := by
  have hmain : isExcludedOrDescendant excluded aid d = true ↔
      (aid ∈ excluded ∨ ∃ anc ∈ ancestorIdsFromDetails d, anc ∈ excluded) := by
    unfold isExcludedOrDescendant
    by_cases h : aid ∈ excluded
    · simp [h]
    · simp [h, List.any_eq_true]
  refine ⟨hmain, fun a => mem_ancestorIdsFromDetails d a, ?_⟩
  intro X hX hbc hne
  exact hmain.mpr (Or.inr ⟨X, (mem_ancestorIdsFromDetails d X).mpr
    (Or.inl ⟨hbc, hne⟩), hX⟩)

/-- The exclusion theorem applied concretely: item `Y` whose breadcrumb holds
the excluded id `X` is itself excluded although not listed. -/
theorem isExcludedOrDescendant_spec_witness :
    isExcludedOrDescendant ["X"] "Y"
      { id := some "Y", title := none,
        breadcrumbs := [some "root", some "X"], relatedParentId := none } =
      true :=
  (isExcludedOrDescendant_spec ["X"] "Y"
      { id := some "Y", title := none,
        breadcrumbs := [some "root", some "X"], relatedParentId := none }).2.2
    "X" (by decide) (by decide) (by decide)

/-- Lookup on a non-empty association list steps through the head. -/
theorem groupLookup_cons (k0 : String) (v : List String)
    (rest : List (String × List String)) (k : String) :
    groupLookup ((k0, v) :: rest) k = if k0 = k then v else groupLookup rest k := by
  unfold groupLookup
  by_cases h : k0 = k
  · rw [List.find?_cons_of_pos _ (by simp [h]), if_pos h]
  · rw [List.find?_cons_of_neg _ (by simp [h]), if_neg h]

/-- Updating one key of the group dict changes only that key's bucket, which
gains the appended id at its end. -/
theorem groupLookup_addToGroups (gs : List (String × List String))
    (key aid k : String) :
    groupLookup (addToGroups gs key aid) k =
      if k = key then groupLookup gs k ++ [aid] else groupLookup gs k := by
  induction gs with
  | nil =>
      show groupLookup [(key, [aid])] k = _
      rw [groupLookup_cons]
      by_cases h : k = key
      · rw [if_pos h.symm, if_pos h]
        simp [groupLookup]
      · rw [if_neg (fun hx => h hx.symm), if_neg h]
  | cons hd rest ih =>
      obtain ⟨k0, v⟩ := hd
      rw [addToGroups]
      by_cases h0 : k0 = key
      · rw [if_pos h0]
        rw [groupLookup_cons, groupLookup_cons]
        by_cases hk : k0 = k
        · rw [if_pos hk, if_pos hk, if_pos (hk.symm.trans h0)]
        · rw [if_neg hk, if_neg hk,
            if_neg (fun hx : k = key => hk (h0.trans hx.symm))]
      · rw [if_neg h0]
        rw [groupLookup_cons, groupLookup_cons]
        by_cases hk : k0 = k
        · rw [if_pos hk, if_pos hk,
            if_neg (fun hx : k = key => h0 (hk.trans hx))]
        · rw [if_neg hk, if_neg hk, ih]

/-- Closed form of the grouping fold, for any starting dict. -/
theorem groupLookup_foldl (k : String) (arts : List (String × ArticleDetails)) :
    ∀ gs : List (String × List String),
      groupLookup
        (arts.foldl
          (fun gs a =>
            match secondLevelIdFromDetails a.2 with
            | some k0 => addToGroups gs k0 a.1
            | none => gs)
          gs) k =
      groupLookup gs k ++
        (arts.filter
          (fun a => secondLevelIdFromDetails a.2 = some k)).map Prod.fst := by
  induction arts with
  | nil => intro gs; simp
  | cons a rest ih =>
      intro gs
      rw [List.foldl_cons]
      rcases hs : secondLevelIdFromDetails a.2 with _ | k0
      · simp only [hs]
        rw [ih gs, List.filter_cons_of_neg (by simp [hs])]
      · simp only [hs]
        rw [ih (addToGroups gs k0 a.1), groupLookup_addToGroups]
        by_cases hk : k = k0
        · subst hk
          rw [if_pos rfl, List.filter_cons_of_pos (by simp [hs]),
            List.map_cons]
          simp
        · rw [if_neg hk, List.filter_cons_of_neg
            (by simp only [hs, decide_eq_true_eq, Option.some.injEq]
                exact fun h => hk h.symm)]

/-- `buildGroups` routes exactly the articles with second-level id `k` into
group `k`, keeping their input order. -/
theorem groupLookup_buildGroups (arts : List (String × ArticleDetails))
    (k : String) :
    groupLookup (buildGroups arts) k =
      (arts.filter
        (fun a => secondLevelIdFromDetails a.2 = some k)).map Prod.fst := by
  have h := groupLookup_foldl k arts []
  simpa [buildGroups, groupLookup] using h

/-- C7: the group key is the truthy `sourceId` of the second breadcrumb
entry, so a group's member list is exactly the processed articles whose
second-level id equals that key, in input order; an item whose breadcrumb has
fewer than two entries gets no group key at all and is therefore routed to no
group; and the combined output's `child_ids` never contain the group node's
own id — only strict descendants are emitted. -/
theorem secondLevelGrouping_spec :
    (∀ (arts : List (String × ArticleDetails)) (k : String),
      groupLookup (buildGroups arts) k =
        (arts.filter
          (fun a => secondLevelIdFromDetails a.2 = some k)).map Prod.fst) ∧
    (∀ d : ArticleDetails, d.breadcrumbs.length < 2 →
      secondLevelIdFromDetails d = none) ∧
    (∀ (d : ArticleDetails) (k : String), secondLevelIdFromDetails d = some k →
      d.breadcrumbs.get? 1 = some (some k) ∧ k ≠ "") ∧
    (∀ (gs : List (String × List String)) (k : String), k ∉ childIds gs k) := by
  refine ⟨groupLookup_buildGroups, ?_, ?_, ?_⟩
  · intro d hlen
    unfold secondLevelIdFromDetails
    rcases hbc : d.breadcrumbs with _ | ⟨b0, _ | ⟨b1, bt⟩⟩
    · rfl
    · rfl
    · rw [hbc] at hlen
      simp only [List.length_cons] at hlen
      omega
  · intro d k hsec
    unfold secondLevelIdFromDetails at hsec
    rcases hbc : d.breadcrumbs with _ | ⟨b0, _ | ⟨b1, bt⟩⟩ <;>
      rw [hbc] at hsec <;> dsimp only at hsec
    · exact absurd hsec (by simp)
    · exact absurd hsec (by simp)
    · by_cases ht : pyTruthy b1
      · rw [if_pos ht] at hsec
        subst hsec
        refine ⟨rfl, ?_⟩
        simpa [pyTruthy] using ht
      · rw [if_neg ht] at hsec
        exact absurd hsec (by simp)
  · intro gs k
    simp [childIds, List.mem_filter]

/-- The grouping theorem applied concretely: of three articles, only the two
whose breadcrumbs pass through `G` at the second level are grouped under `G`
(a one-entry breadcrumb routes nowhere), and `G` is not among its own child
ids. -/
theorem secondLevelGrouping_spec_witness :
    groupLookup
        (buildGroups
          [("a1", { id := some "a1", title := none,
                    breadcrumbs := [some "root", some "G", some "a1"],
                    relatedParentId := none }),
           ("a2", { id := some "a2", title := none,
                    breadcrumbs := [some "root"],
                    relatedParentId := none }),
           ("a3", { id := some "a3", title := none,
                    breadcrumbs := [some "root", some "G"],
                    relatedParentId := none })]) "G" = ["a1", "a3"] ∧
    secondLevelIdFromDetails
        { id := some "a2", title := none, breadcrumbs := [some "root"],
          relatedParentId := none } = none := by
  constructor
  · rw [secondLevelGrouping_spec.1]
    decide
  · exact secondLevelGrouping_spec.2.1 _ (by decide)

/-! ## Properties of chunk emission -/

/-- One bucket-filling step adds at most the processed post itself. -/
theorem mem_addPost (rootIds : List String) (threads : String → List Post)
    (q p : Post) (k : String) :
    p ∈ addPost rootIds threads q k → p ∈ threads k ∨ p = q := by
  unfold addPost
  split
  · intro h
    dsimp only at h
    by_cases hk : k = q.RootId
    · rw [if_pos hk] at h
      rcases List.mem_append.mp h with h | h
      · exact Or.inl h
      · exact Or.inr (by simpa using h)
    · rw [if_neg hk] at h
      exact Or.inl h
  · split
    · intro h
      dsimp only at h
      by_cases hk : k = q.Id
      · rw [if_pos hk] at h
        rcases List.mem_cons.mp h with h | h
        · exact Or.inr h
        · exact Or.inl h
      · rw [if_neg hk] at h
        exact Or.inl h
    · intro h
      exact Or.inl h

/-- Every post in a reconstructed bucket comes from the fetched post list. -/
theorem mem_buildThreads (rootIds : List String) (posts : List Post)
    (k : String) (p : Post) :
    p ∈ buildThreads rootIds posts k → p ∈ posts := by
  have aux : ∀ (ps : List Post) (acc : String → List Post),
      p ∈ (ps.foldl (addPost rootIds) acc) k → p ∈ acc k ∨ p ∈ ps := by
    intro ps
    induction ps with
    | nil => intro acc h; exact Or.inl h
    | cons q rest ih =>
        intro acc h
        rw [List.foldl_cons] at h
        rcases ih (addPost rootIds acc q) h with h2 | h2
        · rcases mem_addPost rootIds acc q p k h2 with h3 | h3
          · exact Or.inl h3
          · exact Or.inr (by simp [h3])
        · exact Or.inr (List.mem_cons_of_mem q h2)
  intro h
  rcases aux posts (fun _ => []) h with h2 | h2
  · simp at h2
  · exact h2

/-- A post contributes an output line only if its message is truthy and its
cleaned text is truthy. -/
theorem postLine_some (clean : String → String) (fmt : Nat → String)
    (userMap : String → Option String) (p : Post) (line : String) :
    postLine clean fmt userMap p = some line →
      p.Message ≠ "" ∧ clean p.Message ≠ "" := by
  unfold postLine
  dsimp only
  split_ifs with h1 h2
  · intro _
    exact ⟨h1, h2⟩
  · intro h
    exact absurd h (by simp)
  · intro h
    exact absurd h (by simp)

/-- A thread all of whose messages normalize to empty contributes no
lines. -/
theorem threadLines_eq_nil (clean : String → String) (fmt : Nat → String)
    (userMap : String → Option String) (posts : List Post)
    (h : ∀ p ∈ posts, clean p.Message = "") :
    threadLines clean fmt userMap posts = [] := by
  unfold threadLines
  rw [List.filterMap_eq_nil_iff]
  intro p hp
  have hcl := h p hp
  unfold postLine
  dsimp only
  split_ifs with h1 h2
  · exact absurd hcl h2
  · rfl
  · rfl

/-- If every bucket's posts normalize to empty, the whole content loop
produces nothing, whatever root posts and processed set it starts from. -/
theorem chunkContentAux_eq_nil (clean : String → String) (fmt : Nat → String)
    (userMap : String → Option String) (threads : String → List Post)
    (hthreads : ∀ k, ∀ p ∈ threads k, clean p.Message = "") :
    ∀ (roots : List Post) (seen : List String),
      chunkContentAux clean fmt userMap threads roots seen = [] := by
  intro roots
  induction roots with
  | nil => intro seen; rfl
  | cons r rest ih =>
      intro seen
      rw [chunkContentAux]
      by_cases h : r.Id ∈ seen
      · rw [if_pos h]
        exact ih seen
      · rw [if_neg h]
        rw [threadLines_eq_nil clean fmt userMap _ ?hempty, List.nil_append]
        · exact ih (r.Id :: seen)
        case hempty =>
          intro p hp
          exact hthreads r.Id p ((mem_sortByCreateAt p _).mp hp)

/-- A non-empty content list exhibits a post, in some bucket, whose cleaned
text is non-empty. -/
theorem chunkContentAux_ne_nil (clean : String → String) (fmt : Nat → String)
    (userMap : String → Option String) (threads : String → List Post) :
    ∀ (roots : List Post) (seen : List String),
      chunkContentAux clean fmt userMap threads roots seen ≠ [] →
      ∃ p, (∃ k, p ∈ threads k) ∧ clean p.Message ≠ "" := by
  intro roots
  induction roots with
  | nil => intro seen h; exact absurd rfl h
  | cons r rest ih =>
      intro seen h
      rw [chunkContentAux] at h
      by_cases hs : r.Id ∈ seen
      · rw [if_pos hs] at h
        exact ih seen h
      · rw [if_neg hs] at h
        by_cases htl : threadLines clean fmt userMap
            (sortByCreateAt (threads r.Id)) = []
        · rw [htl, List.nil_append] at h
          exact ih (r.Id :: seen) h
        · obtain ⟨line, hline⟩ := List.exists_mem_of_ne_nil _ htl
          obtain ⟨p, hp, hpl⟩ := List.mem_filterMap.mp hline
          exact ⟨p, ⟨r.Id, (mem_sortByCreateAt p _).mp hp⟩,
            (postLine_some clean fmt userMap p line hpl).2⟩

/-- C8: when every fetched post of the (channel, window) pair normalizes to
the empty string — in particular when there are no posts at all — no chunk
artifact is produced; and conversely a chunk artifact is produced only when
some fetched post has non-empty normalized content. -/
theorem emptyNormalization_no_chunk (clean : String → String)
    (fmt : Nat → String) (userMap : String → Option String)
    (rootPosts allPosts : List Post) :
    ((∀ p ∈ allPosts, clean p.Message = "") →
      processChannelWindow clean fmt userMap rootPosts allPosts = none) ∧
    (∀ c, processChannelWindow clean fmt userMap rootPosts allPosts = some c →
      ∃ p ∈ allPosts, clean p.Message ≠ "") := by
  constructor
  · intro h
    have hempty : chunkContent clean fmt userMap rootPosts allPosts = [] := by
      unfold chunkContent
      apply chunkContentAux_eq_nil
      intro k p hp
      exact h p (mem_buildThreads _ _ _ _ hp)
    unfold processChannelWindow
    rw [hempty]
    rfl
  · intro c hc
    by_cases hne : chunkContent clean fmt userMap rootPosts allPosts = []
    · unfold processChannelWindow at hc
      rw [hne] at hc
      exact absurd hc (by simp)
    · obtain ⟨p, ⟨k, hpk⟩, hcl⟩ :=
        chunkContentAux_ne_nil clean fmt userMap
          (buildThreads (rootPosts.map Post.Id) allPosts) rootPosts [] hne
      exact ⟨p, mem_buildThreads _ _ _ _ hpk, hcl⟩

/-- The suppression theorem applied concretely: a window whose two posts both
normalize to empty produces no chunk. -/
theorem emptyNormalization_no_chunk_witness :
    processChannelWindow (fun _ => "") (fun _ => "t") (fun _ => none)
      [postRootR] [postRootR, postReplyA] = none :=
  (emptyNormalization_no_chunk (fun _ => "") (fun _ => "t") (fun _ => none)
    [postRootR] [postRootR, postReplyA]).1 (fun _ _ => rfl)

/-- The first element surviving `dropWhile` fails the predicate. -/
theorem dropWhile_head_false (p : Char → Bool) :
    ∀ (l : List Char) (c : Char) (rest : List Char),
      l.dropWhile p = c :: rest → p c = false := by
  intro l
  induction l with
  | nil => intro c rest h; simp [List.dropWhile] at h
  | cons a as ih =>
      intro c rest h
      rw [List.dropWhile_cons] at h
      by_cases hp : p a
      · rw [if_pos hp] at h
        exact ih c rest h
      · rw [if_neg hp] at h
        injection h with h1 _
        subst h1
        simpa using hp

/-- Every character of a collapsed text is the replacement space or a
non-whitespace character of the input. -/
theorem mem_collapseWhitespace (l : List Char) :
    ∀ c ∈ collapseWhitespace l,
      c = ' ' ∨ (c ∈ l ∧ isPyWhitespace c = false) := by
  induction l using collapseWhitespace.induct with
  | case1 =>
      intro c hc
      simp [collapseWhitespace] at hc
  | case2 c0 cs hws ih =>
      intro c hc
      rw [collapseWhitespace, if_pos hws] at hc
      rcases List.mem_cons.mp hc with rfl | hc
      · exact Or.inl rfl
      · rcases ih c hc with h | ⟨hmem, hnws⟩
        · exact Or.inl h
        · exact Or.inr ⟨List.mem_cons_of_mem _
            ((List.dropWhile_suffix _).sublist.subset hmem), hnws⟩
  | case3 c0 cs hws ih =>
      intro c hc
      rw [collapseWhitespace, if_neg hws] at hc
      rcases List.mem_cons.mp hc with rfl | hc
      · exact Or.inr ⟨List.mem_cons_self _ _, by simpa using hws⟩
      · rcases ih c hc with h | ⟨hmem, hnws⟩
        · exact Or.inl h
        · exact Or.inr ⟨List.mem_cons_of_mem _ hmem, hnws⟩

/-- A collapsed text holds no two adjacent whitespace characters. -/
theorem chain_collapseWhitespace (l : List Char) :
    List.Chain'
      (fun a b => isPyWhitespace a = true → isPyWhitespace b = false)
      (collapseWhitespace l) := by
  induction l using collapseWhitespace.induct with
  | case1 => rw [collapseWhitespace]; exact List.chain'_nil
  | case2 c0 cs hws ih =>
      rw [collapseWhitespace, if_pos hws]
      rw [List.chain'_cons']
      refine ⟨?_, ih⟩
      intro y hy _
      rcases hcol : collapseWhitespace (cs.dropWhile isPyWhitespace)
        with _ | ⟨d, rest⟩
      · rw [hcol] at hy
        simp at hy
      · rw [hcol] at hy
        simp at hy
        subst hy
        rcases hdw : cs.dropWhile isPyWhitespace with _ | ⟨e, es⟩
        · rw [hdw] at hcol
          simp [collapseWhitespace] at hcol
        · rw [hdw] at hcol
          have hne : isPyWhitespace e = false :=
            dropWhile_head_false _ cs e es hdw
          rw [collapseWhitespace, if_neg (by simp [hne])] at hcol
          injection hcol with h1 _
          subst h1
          exact hne
  | case3 c0 cs hws ih =>
      rw [collapseWhitespace, if_neg hws]
      rw [List.chain'_cons']
      refine ⟨?_, ih⟩
      intro y _ hcws
      exact absurd hcws (by simpa using hws)

/-- Collapsing is the identity on a text whose whitespace characters are all
the single space and never adjacent. -/
theorem collapseWhitespace_fixed (l : List Char)
    (h1 : ∀ c ∈ l, isPyWhitespace c = true → c = ' ')
    (h2 : List.Chain'
      (fun a b => isPyWhitespace a = true → isPyWhitespace b = false) l) :
    collapseWhitespace l = l := by
  induction l with
  | nil => rw [collapseWhitespace]
  | cons c cs ih =>
      have htail1 : ∀ x ∈ cs, isPyWhitespace x = true → x = ' ' :=
        fun x hx => h1 x (List.mem_cons_of_mem _ hx)
      have htail2 := (List.chain'_cons'.mp h2).2
      by_cases hws : isPyWhitespace c
      · rw [collapseWhitespace, if_pos hws]
        have hc : c = ' ' := h1 c (List.mem_cons_self _ _) hws
        have hdw : cs.dropWhile isPyWhitespace = cs := by
          cases cs with
          | nil => rfl
          | cons d ds =>
              have hR := (List.chain'_cons'.mp h2).1 d (by simp)
              have hd : isPyWhitespace d = false := hR hws
              rw [List.dropWhile_cons, if_neg (by simp [hd])]
        rw [hdw, ih htail1 htail2, hc]
      · rw [collapseWhitespace, if_neg hws]
        rw [ih htail1 htail2]

/-- `dropWhile` is the identity when the head (if any) fails the
predicate. -/
theorem dropWhile_eq_self_of_head (p : Char → Bool) (l : List Char)
    (h : ∀ c rest, l = c :: rest → p c = false) : l.dropWhile p = l := by
  cases l with
  | nil => rfl
  | cons c cs => rw [List.dropWhile_cons, if_neg (by simp [h c cs rfl])]

/-- The stripped text is a contiguous slice of the original. -/
theorem stripWs_sliceOf (l : List Char) : stripWs l <:+: l := by
  unfold stripWs rstripWs lstripWs
  have h1 : List.dropWhile isPyWhitespace l <:+ l := List.dropWhile_suffix _
  have h2 : ((List.dropWhile isPyWhitespace l).reverse.dropWhile
      isPyWhitespace).reverse <+: List.dropWhile isPyWhitespace l := by
    refine List.reverse_suffix.mp ?_
    simpa using
      @List.dropWhile_suffix Char
        ((List.dropWhile isPyWhitespace l).reverse) isPyWhitespace
  have h2i := List.IsPrefix.isInfix h2
  have h1i := List.IsSuffix.isInfix h1
  exact List.IsInfix.trans h2i h1i

/-- The stripped text is in particular a prefix of the left-stripped
text. -/
theorem stripWs_prefix_lstrip (l : List Char) :
    stripWs l <+: lstripWs l := by
  unfold stripWs rstripWs lstripWs
  refine List.reverse_suffix.mp ?_
  simpa using
    List.dropWhile_suffix (l := (List.dropWhile isPyWhitespace l).reverse)
      isPyWhitespace

/-- A stripped text starts with a non-whitespace character. -/
theorem stripWs_head (l : List Char) (c : Char) (rest : List Char)
    (h : stripWs l = c :: rest) : isPyWhitespace c = false := by
  obtain ⟨tail2, htail⟩ := stripWs_prefix_lstrip l
  rw [h] at htail
  unfold lstripWs at htail
  exact dropWhile_head_false isPyWhitespace l c (rest ++ tail2)
    (by rw [← htail]; simp)

/-- A stripped text ends with a non-whitespace character. -/
theorem stripWs_last (l : List Char) (c : Char) (rest : List Char)
    (h : (stripWs l).reverse = c :: rest) : isPyWhitespace c = false := by
  unfold stripWs rstripWs at h
  rw [List.reverse_reverse] at h
  exact dropWhile_head_false isPyWhitespace _ c rest h

/-- Stripping is the identity on a text that neither starts nor ends with
whitespace. -/
theorem stripWs_fixed (l : List Char)
    (hhead : ∀ c rest, l = c :: rest → isPyWhitespace c = false)
    (hlast : ∀ c rest, l.reverse = c :: rest → isPyWhitespace c = false) :
    stripWs l = l := by
  unfold stripWs lstripWs rstripWs
  rw [dropWhile_eq_self_of_head _ _ hhead]
  rw [dropWhile_eq_self_of_head _ _ hlast]
  exact List.reverse_reverse l

/-- The wiki-side normalizer is idempotent, and empty input yields empty
output: every character of one pass's output is the replacement space or a
non-emoji, non-whitespace character of the input, whitespace in the output
is single spaces never adjacent and never leading or trailing, so the second
pass's emoji filter, whitespace collapse and strip are all the identity.
(The chat-side normalizer is NOT covered: its markdown rendering lives in a
third-party library outside this repository, and Markdown's backslash-escape
handling breaks idempotence there, e.g. one pass sends the escaped text
backslash-hash-space-h-i to the literal text hash-space-h-i, which a second
pass parses as a heading.) -/
theorem cleanTextTeamly_idempotent :
    (∀ s : List Char, cleanTextTeamly (cleanTextTeamly s) = cleanTextTeamly s) ∧
    cleanTextTeamly [] = [] := by
  refine ⟨?_, rfl⟩
  intro s
  by_cases hs : s = []
  · subst hs
    rfl
  · have hts : cleanTextTeamly s =
        stripWs (collapseWhitespace
          (s.filter (fun c => !isEmojiChar c))) := by
      rw [cleanTextTeamly, if_neg hs]
    set u := collapseWhitespace (s.filter (fun c => !isEmojiChar c)) with hu
    set t := stripWs u with htdef
    rw [hts]
    by_cases htn : t = []
    · rw [htn]
      rfl
    · rw [cleanTextTeamly, if_neg htn]
      have hsubu : ∀ c ∈ t, c ∈ u :=
        fun c hc => (stripWs_sliceOf u).sublist.subset hc
      have hmemu : ∀ c ∈ t, c = ' ' ∨
          (c ∈ s.filter (fun c => !isEmojiChar c) ∧
           isPyWhitespace c = false) :=
        fun c hc => mem_collapseWhitespace _ c (hsubu c hc)
      have hfilter : t.filter (fun c => !isEmojiChar c) = t := by
        rw [List.filter_eq_self]
        intro c hc
        rcases hmemu c hc with rfl | ⟨hmem, _⟩
        · decide
        · have h3 : (!isEmojiChar c) = true :=
            @List.of_mem_filter Char (fun x => !isEmojiChar x) c s hmem
          simpa using h3
      have hcollapse : collapseWhitespace t = t := by
        apply collapseWhitespace_fixed
        · intro c hc hws
          rcases hmemu c hc with rfl | ⟨_, hnws⟩
          · rfl
          · rw [hws] at hnws
            cases hnws
        · exact List.Chain'.infix (chain_collapseWhitespace _)
            (stripWs_sliceOf u)
      have hstrip : stripWs t = t := by
        apply stripWs_fixed
        · intro c rest hcr
          exact stripWs_head u c rest (htdef ▸ hcr)
        · intro c rest hcr
          exact stripWs_last u c rest (htdef ▸ hcr)
      rw [hfilter, hcollapse, hstrip]

end KBGen
